import Mathlib

/-!
Verification of the frame-iteration / cursor engine of the rmp3 decoder
(src/lib.rs).

The crate is a thin safe wrapper around the external minimp3 decode
primitive (reached through FFI; the C code and the generated bindings are
not part of src/).  The wrapper itself is what we embed: the `Decoder`
struct with its cursor fields (`data_offset`, `data_rem_len`), the
single-slot peek cache (`cached_len`), the fixed-size PCM scratch buffer,
and the operations `next_frame`, `peek_frame`, `skip_frame`, `position`
and the private helpers `frame_bytes` and `ffi_decode_frame`.

Modelling decisions, each mirroring a line of src/lib.rs:
* `data_ptr` always moves in lockstep with `data_offset`
  (lines 97-98 and 157/159 update both together), so a single `data_offset`
  into the immutable `data` list models both the pointer and the offset.
* `ffi_frame : mp3dec_frame_info_t` is written by every call of
  `mp3dec_decode_frame` and read back only inside the same wrapper method,
  so each operation binds the freshly returned `FrameInfo` locally.
* C `int` values are modelled as `Int`.  The casts `as u32` / `as usize`
  in the wrapper are applied to values that the primitive's contract
  keeps inside `0 ≤ v < 2^31` wherever the cast feeds arithmetic
  (`frame_bytes`, the sample count, the channel count), so they are
  modelled by `Int.toNat`.
* usize subtraction (`self.data_rem_len -= frame_bytes`) is modelled by
  Nat subtraction; the development proves the side condition
  `frame_bytes ≤ data_rem_len` at every subtraction site, under which
  Nat subtraction, wrapping usize subtraction and checked usize
  subtraction all agree.
* Raw slices (`slice::from_raw_parts`) become `List.drop`/`List.take`
  views of the buffer; the development proves the produced views have
  exactly the length the raw slice would have.
-/

/-- Maximum amount of samples that can be yielded per frame
(ffi::MINIMP3_MAX_SAMPLES_PER_FRAME, i.e. 1152 samples × 2 channels). -/
def MAX_SAMPLES_PER_FRAME : Nat := 2304

/-- c_int::max_value(), the primitive's native signed-length ceiling. -/
def INT_MAX : Nat := 2147483647

/-- One PCM sample (type Sample = i16 in the default configuration). -/
abbrev Sample := Int

/-- `mp3dec_frame_info_t`: transient output of one decode-primitive call. -/
structure FrameInfo where
  frame_bytes : Int
  channels : Int
  hz : Int
  layer : Int
  bitrate_kbps : Int
  deriving Repr, DecidableEq

/-- Modelled from the spec: the external decode primitive
`ffi::mp3dec_decode_frame` (minimp3), whose C source and bindings are not
part of src/.  Spec §4.2: `decode(window, output_buffer_or_none) ->
(samples_per_channel, FrameInfo)`; the call is deterministic in the
presented window (spec §5: "all operations are deterministic").  The
`decode` field returns the samples-per-channel count and the frame info
for a given window and output-buffer flag; `pcmWrite` gives the contents
of the fixed-size PCM scratch buffer after a call that was handed an
output buffer.  The remaining fields are the primitive's contract, taken
from spec §4.2's three outcomes:
(a) valid audio frame: samples_per_channel > 0 and frame_bytes is the full
    consumed length including the header (hence positive, and bounded by
    the window; a decoded frame has a positive number of channels and at
    most MAX_SAMPLES_PER_FRAME total samples);
(b) valid header but no decodable audio: samples_per_channel == 0 and
    frame_bytes > 0;
(c) no frame found before the window is exhausted: frame_bytes == 0. -/
structure DecodePrimitive where
  decode : List Nat → Bool → Int × FrameInfo
  pcmWrite : List Nat → List Sample
  samples_nonneg : ∀ w b, 0 ≤ (decode w b).1
  frame_bytes_nonneg : ∀ w b, 0 ≤ (decode w b).2.frame_bytes
  frame_bytes_le : ∀ w b, ((decode w b).2.frame_bytes).toNat ≤ w.length
  samples_pos_frame_bytes_pos : ∀ w b, 0 < (decode w b).1 → 0 < (decode w b).2.frame_bytes
  samples_pos_channels_pos : ∀ w b, 0 < (decode w b).1 → 0 < (decode w b).2.channels
  samples_mul_channels_le :
    ∀ w b, ((decode w b).1).toNat * ((decode w b).2.channels).toNat ≤ MAX_SAMPLES_PER_FRAME
  pcmWrite_length : ∀ w, (pcmWrite w).length = MAX_SAMPLES_PER_FRAME

/-- Info about the current frame yielded by a Decoder (struct Frame). -/
structure Frame where
  bitrate : Nat
  channels : Nat
  mpeg_layer : Nat
  samples : List Sample
  sample_count : Nat
  sample_rate : Nat
  source : List Nat
  deriving Repr, DecidableEq

/-- Streaming iterator state (struct Decoder): the borrowed source buffer,
the PCM scratch array, the peek cache and the cursor. -/
structure Decoder where
  data : List Nat
  pcm : List Sample
  cached_len : Option Nat
  data_offset : Nat
  data_rem_len : Nat
  deriving Repr, DecidableEq

/-- Decoder::new: cursor at the start, full length remaining, empty cache,
zeroed scratch buffer. -/
def Decoder.new (data : List Nat) : Decoder :=
  { data := data
    pcm := List.replicate MAX_SAMPLES_PER_FRAME 0
    cached_len := none
    data_offset := 0
    data_rem_len := data.length }

/-- The byte window handed to the primitive by Decoder::ffi_decode_frame:
the bytes at `data_ptr`, presented with length
`data_rem_len.min(c_int::max_value())`. -/
def Decoder.ffi_window (d : Decoder) : List Nat :=
  (d.data.drop d.data_offset).take (min d.data_rem_len INT_MAX)

/-- Decoder::ffi_decode_frame: clamp the window at the c_int ceiling and
invoke the primitive; `has_out` records whether a non-null output buffer
was passed. -/
def Decoder.ffi_decode_frame (P : DecodePrimitive) (d : Decoder) (has_out : Bool) :
    Int × FrameInfo :=
  P.decode d.ffi_window has_out

/-- Decoder::next_frame: clear the cache, decode with the PCM output
buffer, advance the cursor by the reported frame_bytes, and either return
the decoded frame (samples > 0), retry after a skipped non-audio chunk
(frame_bytes ≠ 0), or report end of stream. -/
def Decoder.next_frame (P : DecodePrimitive) (d : Decoder) : Option Frame × Decoder :=
  let d0 : Decoder := { d with cached_len := none }
  let r := d0.ffi_decode_frame P true
  let samples : Nat := r.1.toNat
  let info : FrameInfo := r.2
  let frame_bytes : Nat := info.frame_bytes.toNat
  let d1 : Decoder :=
    { d0 with
      pcm := P.pcmWrite d0.ffi_window
      data_offset := d0.data_offset + frame_bytes
      data_rem_len := d0.data_rem_len - frame_bytes }
  if 0 < samples then
    (some
      { bitrate := info.bitrate_kbps.toNat
        channels := info.channels.toNat
        mpeg_layer := info.layer.toNat
        samples := (P.pcmWrite d0.ffi_window).take (samples * info.channels.toNat)
        sample_count := samples
        sample_rate := info.hz.toNat
        source := (d0.data.drop d0.data_offset).take frame_bytes }, d1)
  else if h : info.frame_bytes ≠ 0 then
    Decoder.next_frame P d1
  else
    (none, d1)
termination_by d.data_rem_len
decreasing_by
  have h3 : (Decoder.ffi_decode_frame P { d with cached_len := none } true).2.frame_bytes ≠ 0 := h
  simp only [Decoder.ffi_decode_frame] at h3 ⊢
  have h1 := P.frame_bytes_le (Decoder.ffi_window { d with cached_len := none }) true
  have hnn := P.frame_bytes_nonneg (Decoder.ffi_window { d with cached_len := none }) true
  have h2 : (Decoder.ffi_window { d with cached_len := none }).length ≤ d.data_rem_len := by
    simp only [Decoder.ffi_window, List.length_take, List.length_drop]
    omega
  omega

/-- Decoder::peek_frame: decode with a null output pointer; on success
cache the discovered length and return a metadata-only Frame (empty sample
slice); no cursor field changes. -/
def Decoder.peek_frame (P : DecodePrimitive) (d : Decoder) : Option Frame × Decoder :=
  let r := d.ffi_decode_frame P false
  let samples : Nat := r.1.toNat
  let info : FrameInfo := r.2
  if info.frame_bytes ≠ 0 then
    (some
      { bitrate := info.bitrate_kbps.toNat
        channels := info.channels.toNat
        mpeg_layer := info.layer.toNat
        samples := []
        sample_count := samples
        sample_rate := info.hz.toNat
        source := (d.data.drop d.data_offset).take info.frame_bytes.toNat },
     { d with cached_len := some info.frame_bytes.toNat })
  else
    (none, d)

/-- Decoder::frame_bytes (private): consume the cached length if present,
else peek (which may set the cache) and take the peeked source length;
unconditionally clear the cache afterwards. -/
def Decoder.frame_bytes (P : DecodePrimitive) (d : Decoder) : Option Nat × Decoder :=
  let r :=
    match d.cached_len with
    | some n => (some n, d)
    | none =>
      let pr : Option Frame × Decoder := d.peek_frame P
      (pr.1.map (fun (f : Frame) => f.source.length), pr.2)
  (r.1, { r.2 with cached_len := none })

/-- Decoder::skip_frame: look up the next frame length (cache-aware) and
advance the cursor by it; a no-op when no length is found. -/
def Decoder.skip_frame (P : DecodePrimitive) (d : Decoder) : Decoder :=
  let r := d.frame_bytes P
  match r.1 with
  | some len =>
    { r.2 with
      data_offset := r.2.data_offset + len
      data_rem_len := r.2.data_rem_len - len }
  | none => r.2

/-- Decoder::position: the current offset into the MP3 data. -/
def Decoder.position (d : Decoder) : Nat :=
  d.data_offset

/-! ## Elementary facts about the window and the reported frame length -/

/-- The window never exceeds the remaining count. -/
theorem ffi_window_length_le_rem (d : Decoder) : d.ffi_window.length ≤ d.data_rem_len := by
  simp only [Decoder.ffi_window, List.length_take, List.length_drop]
  omega

/-- The window never runs past the end of the buffer. -/
theorem ffi_window_length_le_avail (d : Decoder) :
    d.ffi_window.length ≤ d.data.length - d.data_offset := by
  simp only [Decoder.ffi_window, List.length_take, List.length_drop]
  omega

/-- The reported frame length (as a usize) never exceeds the remaining count:
the subtraction sites in next_frame and skip_frame cannot underflow. -/
theorem decode_frame_bytes_le_rem (P : DecodePrimitive) (d : Decoder) (b : Bool) :
    ((P.decode d.ffi_window b).2.frame_bytes).toNat ≤ d.data_rem_len :=
  le_trans (P.frame_bytes_le d.ffi_window b) (ffi_window_length_le_rem d)

/-- The reported frame length never runs past the end of the buffer. -/
theorem decode_frame_bytes_le_avail (P : DecodePrimitive) (d : Decoder) (b : Bool) :
    ((P.decode d.ffi_window b).2.frame_bytes).toNat ≤ d.data.length - d.data_offset :=
  le_trans (P.frame_bytes_le d.ffi_window b) (ffi_window_length_le_avail d)

/-- The window only depends on the cursor, not on the peek cache. -/
theorem ffi_window_set_cache (d : Decoder) (c : Option Nat) :
    Decoder.ffi_window { d with cached_len := c } = d.ffi_window := rfl

/-! ## Characterization of each operation -/

/-- The frame view built by peek_frame at state d. -/
def peekedFrame (P : DecodePrimitive) (d : Decoder) : Frame :=
  { bitrate := ((P.decode d.ffi_window false).2.bitrate_kbps).toNat
    channels := ((P.decode d.ffi_window false).2.channels).toNat
    mpeg_layer := ((P.decode d.ffi_window false).2.layer).toNat
    samples := []
    sample_count := ((P.decode d.ffi_window false).1).toNat
    sample_rate := ((P.decode d.ffi_window false).2.hz).toNat
    source := (d.data.drop d.data_offset).take ((P.decode d.ffi_window false).2.frame_bytes).toNat }

theorem peek_frame_eq (P : DecodePrimitive) (d : Decoder) :
    d.peek_frame P =
      if (P.decode d.ffi_window false).2.frame_bytes = 0 then (none, d)
      else (some (peekedFrame P d),
            { d with cached_len := some ((P.decode d.ffi_window false).2.frame_bytes).toNat }) := by
  by_cases h : (P.decode d.ffi_window false).2.frame_bytes = 0 <;>
    simp [Decoder.peek_frame, Decoder.ffi_decode_frame, h, peekedFrame]

/-- The cursor/scratch state after the unconditional advance in
next_frame (cache cleared, PCM scratch overwritten, cursor moved by the
reported frame_bytes). -/
def nextAdvance (P : DecodePrimitive) (d : Decoder) : Decoder :=
  { d with
    cached_len := none
    pcm := P.pcmWrite d.ffi_window
    data_offset := d.data_offset + ((P.decode d.ffi_window true).2.frame_bytes).toNat
    data_rem_len := d.data_rem_len - ((P.decode d.ffi_window true).2.frame_bytes).toNat }

/-- The frame view built by next_frame at state d on a successful decode. -/
def decodedFrame (P : DecodePrimitive) (d : Decoder) : Frame :=
  { bitrate := ((P.decode d.ffi_window true).2.bitrate_kbps).toNat
    channels := ((P.decode d.ffi_window true).2.channels).toNat
    mpeg_layer := ((P.decode d.ffi_window true).2.layer).toNat
    samples := (P.pcmWrite d.ffi_window).take
      (((P.decode d.ffi_window true).1).toNat * ((P.decode d.ffi_window true).2.channels).toNat)
    sample_count := ((P.decode d.ffi_window true).1).toNat
    sample_rate := ((P.decode d.ffi_window true).2.hz).toNat
    source := (d.data.drop d.data_offset).take ((P.decode d.ffi_window true).2.frame_bytes).toNat }

/-- Unfolding of next_frame, with the source lets spelled out. -/
theorem next_frame_eq (P : DecodePrimitive) (d : Decoder) :
    d.next_frame P =
      if 0 < ((P.decode d.ffi_window true).1).toNat then
        (some (decodedFrame P d), nextAdvance P d)
      else if (P.decode d.ffi_window true).2.frame_bytes ≠ 0 then
        (nextAdvance P d).next_frame P
      else
        (none, nextAdvance P d) := by
  rw [Decoder.next_frame.eq_def]
  simp only [Decoder.ffi_decode_frame, ffi_window_set_cache, dite_eq_ite, nextAdvance, decodedFrame]

/-- Characterization of the private frame_bytes lookup: consume the cache
if set, else the peeked length; the cache is clear afterwards. -/
theorem frame_bytes_eq (P : DecodePrimitive) (d : Decoder) :
    d.frame_bytes P =
      match d.cached_len with
      | some n => (some n, { d with cached_len := none })
      | none =>
        if (P.decode d.ffi_window false).2.frame_bytes = 0 then (none, d)
        else (some ((P.decode d.ffi_window false).2.frame_bytes).toNat, d) := by
  cases hc : d.cached_len with
  | some n => simp [Decoder.frame_bytes, hc]
  | none =>
    by_cases h : (P.decode d.ffi_window false).2.frame_bytes = 0
    · simp only [Decoder.frame_bytes, hc, peek_frame_eq, h, if_pos, Option.map_none]
      have : ({ d with cached_len := none } : Decoder) = d := by
        cases d; simp_all
      simp [this]
    · have hsrc : (peekedFrame P d).source.length =
          ((P.decode d.ffi_window false).2.frame_bytes).toNat := by
        simp only [peekedFrame, List.length_take, List.length_drop]
        have := decode_frame_bytes_le_avail P d false
        omega
      have hd : ({ d with cached_len := none } : Decoder) = d := by
        cases d; simp_all
      simp only [Decoder.frame_bytes, hc, peek_frame_eq, h, if_neg, Option.map_some]
      simp [hsrc, hd]

/-- Characterization of skip_frame. -/
theorem skip_frame_eq (P : DecodePrimitive) (d : Decoder) :
    d.skip_frame P =
      match d.cached_len with
      | some n =>
        { d with
          cached_len := none
          data_offset := d.data_offset + n
          data_rem_len := d.data_rem_len - n }
      | none =>
        if (P.decode d.ffi_window false).2.frame_bytes = 0 then d
        else
          { d with
            data_offset := d.data_offset + ((P.decode d.ffi_window false).2.frame_bytes).toNat
            data_rem_len := d.data_rem_len - ((P.decode d.ffi_window false).2.frame_bytes).toNat } := by
  cases hc : d.cached_len with
  | some n => simp [Decoder.skip_frame, frame_bytes_eq, hc]
  | none =>
    by_cases h : (P.decode d.ffi_window false).2.frame_bytes = 0
    · simp [Decoder.skip_frame, frame_bytes_eq, hc, h]
    · have : ({ d with cached_len := none } : Decoder) = d := by
        cases d; simp_all
      simp [Decoder.skip_frame, frame_bytes_eq, hc, h, this]

/-! ## Cursor invariant and reachable states -/

/-- The cursor/cache invariant: the buffer is the one the decoder was
built over, offset + remaining equals the total length, and a set peek
cache holds exactly the (positive) frame length the primitive reports at
the current window. -/
def CursorInv (P : DecodePrimitive) (data : List Nat) (d : Decoder) : Prop :=
  d.data = data ∧
  d.data_offset + d.data_rem_len = data.length ∧
  ∀ n, d.cached_len = some n →
    n = ((P.decode d.ffi_window false).2.frame_bytes).toNat ∧ 0 < n

/-- States reachable from Decoder::new over a given buffer through any
sequence of the public operations (position is a pure query). -/
inductive Reach (P : DecodePrimitive) (data : List Nat) : Decoder → Prop where
  | init : Reach P data (Decoder.new data)
  | next {d} : Reach P data d → Reach P data (d.next_frame P).2
  | peek {d} : Reach P data d → Reach P data (d.peek_frame P).2
  | skip {d} : Reach P data d → Reach P data (d.skip_frame P)

/-- Under the cursor invariant, the window length is exactly the clamped
remaining count. -/
theorem ffi_window_length_inv (P : DecodePrimitive) (data : List Nat) (d : Decoder)
    (h : CursorInv P data d) : d.ffi_window.length = min d.data_rem_len INT_MAX := by
  obtain ⟨hdata, hlen, _⟩ := h
  simp only [Decoder.ffi_window, List.length_take, List.length_drop, hdata]
  omega

/-- The advance step of next_frame preserves the cursor invariant. -/
theorem nextAdvance_inv (P : DecodePrimitive) (data : List Nat) (d : Decoder)
    (h : CursorInv P data d) : CursorInv P data (nextAdvance P d) := by
  obtain ⟨hdata, hlen, _⟩ := h
  have hfb := decode_frame_bytes_le_rem P d true
  exact ⟨hdata, by simp [nextAdvance]; omega, by simp [nextAdvance]⟩

/-- next_frame preserves the cursor invariant, never grows the remaining
count, never moves the cursor back, and leaves the cache clear. -/
theorem next_frame_spec (P : DecodePrimitive) (data : List Nat) :
    ∀ (k : Nat) (d : Decoder), d.data_rem_len ≤ k → CursorInv P data d →
      CursorInv P data (d.next_frame P).2 ∧
      (d.next_frame P).2.data_rem_len ≤ d.data_rem_len ∧
      d.data_offset ≤ (d.next_frame P).2.data_offset ∧
      (d.next_frame P).2.cached_len = none := by
  intro k
  induction k with
  | zero =>
    intro d hk hInv
    have hrem : d.data_rem_len = 0 := by omega
    have hfb := decode_frame_bytes_le_rem P d true
    have hfb0 : (P.decode d.ffi_window true).2.frame_bytes = 0 := by
      have := P.frame_bytes_nonneg d.ffi_window true
      omega
    have hs0 : ¬ 0 < ((P.decode d.ffi_window true).1).toNat := by
      intro hs
      have := P.samples_pos_frame_bytes_pos d.ffi_window true (by omega)
      omega
    rw [next_frame_eq, if_neg hs0, if_neg (by simp [hfb0])]
    exact ⟨nextAdvance_inv P data d hInv, by simp [nextAdvance], by simp [nextAdvance], rfl⟩
  | succ k ih =>
    intro d hk hInv
    have hfb := decode_frame_bytes_le_rem P d true
    by_cases hs : 0 < ((P.decode d.ffi_window true).1).toNat
    · rw [next_frame_eq, if_pos hs]
      exact ⟨nextAdvance_inv P data d hInv, by simp [nextAdvance], by simp [nextAdvance], rfl⟩
    · by_cases hz : (P.decode d.ffi_window true).2.frame_bytes ≠ 0
      · rw [next_frame_eq, if_neg hs, if_pos hz]
        have hpos : 0 < ((P.decode d.ffi_window true).2.frame_bytes).toNat := by
          have := P.frame_bytes_nonneg d.ffi_window true
          omega
        have ha_rem : (nextAdvance P d).data_rem_len =
            d.data_rem_len - ((P.decode d.ffi_window true).2.frame_bytes).toNat := rfl
        have ha_off : (nextAdvance P d).data_offset =
            d.data_offset + ((P.decode d.ffi_window true).2.frame_bytes).toNat := rfl
        have hk1 : (nextAdvance P d).data_rem_len ≤ k := by omega
        obtain ⟨h1, h2, h3, h4⟩ := ih (nextAdvance P d) hk1 (nextAdvance_inv P data d hInv)
        exact ⟨h1, by omega, by omega, h4⟩
      · rw [next_frame_eq, if_neg hs, if_neg hz]
        exact ⟨nextAdvance_inv P data d hInv, by simp [nextAdvance], by simp [nextAdvance], rfl⟩

/-- peek_frame preserves the cursor invariant. -/
theorem peek_frame_inv (P : DecodePrimitive) (data : List Nat) (d : Decoder)
    (h : CursorInv P data d) : CursorInv P data (d.peek_frame P).2 := by
  obtain ⟨hdata, hlen, hcache⟩ := h
  rw [peek_frame_eq]
  by_cases hz : (P.decode d.ffi_window false).2.frame_bytes = 0
  · rw [if_pos hz]
    exact ⟨hdata, hlen, hcache⟩
  · rw [if_neg hz]
    refine ⟨hdata, hlen, ?_⟩
    intro n hn
    simp only [ffi_window_set_cache] at hn ⊢
    have := P.frame_bytes_nonneg d.ffi_window false
    simp only [Option.some.injEq] at hn
    constructor
    · exact hn.symm
    · omega

/-- skip_frame preserves the cursor invariant. -/
theorem skip_frame_inv (P : DecodePrimitive) (data : List Nat) (d : Decoder)
    (h : CursorInv P data d) : CursorInv P data (d.skip_frame P) := by
  obtain ⟨hdata, hlen, hcache⟩ := h
  rw [skip_frame_eq]
  cases hc : d.cached_len with
  | some n =>
    obtain ⟨hn, hnpos⟩ := hcache n hc
    have hle : n ≤ d.data_rem_len := by
      rw [hn]
      exact decode_frame_bytes_le_rem P d false
    exact ⟨hdata, by simp; omega, by simp⟩
  | none =>
    by_cases hz : (P.decode d.ffi_window false).2.frame_bytes = 0
    · rw [if_pos hz]
      exact ⟨hdata, hlen, hcache⟩
    · rw [if_neg hz]
      have hle := decode_frame_bytes_le_rem P d false
      exact ⟨hdata, by simp; omega, by simp [hc]⟩

/-- Every reachable state satisfies the cursor invariant. -/
theorem reach_inv (P : DecodePrimitive) (data : List Nat) (d : Decoder)
    (h : Reach P data d) : CursorInv P data d := by
  induction h with
  | init => exact ⟨rfl, by simp [Decoder.new], by simp [Decoder.new]⟩
  | next _ ih => exact (next_frame_spec P data _ _ le_rfl ih).1
  | peek _ ih => exact peek_frame_inv P data _ ih
  | skip _ ih => exact skip_frame_inv P data _ ih

/-- If the primitive never reports samples but always reports a nonzero
skip length on non-empty windows, next_frame performs skip-and-retry
until the whole remainder is consumed and returns nothing. -/
theorem next_frame_exhausts (P : DecodePrimitive) (data : List Nat)
    (hs : ∀ w b, (P.decode w b).1 = 0)
    (hf : ∀ w b, w ≠ [] → (P.decode w b).2.frame_bytes ≠ 0) :
    ∀ (k : Nat) (d : Decoder), d.data_rem_len ≤ k → CursorInv P data d →
      (d.next_frame P).1 = none ∧ (d.next_frame P).2.data_rem_len = 0 := by
  intro k
  induction k with
  | zero =>
    intro d hk hInv
    have hrem : d.data_rem_len = 0 := by omega
    have hfb := decode_frame_bytes_le_rem P d true
    have hfb0 : (P.decode d.ffi_window true).2.frame_bytes = 0 := by
      have := P.frame_bytes_nonneg d.ffi_window true
      omega
    have hs0 : ¬ 0 < ((P.decode d.ffi_window true).1).toNat := by
      simp [hs]
    rw [next_frame_eq, if_neg hs0, if_neg (by simp [hfb0])]
    exact ⟨rfl, by simp [nextAdvance, hrem]⟩
  | succ k ih =>
    intro d hk hInv
    have hs0 : ¬ 0 < ((P.decode d.ffi_window true).1).toNat := by
      simp [hs]
    by_cases hz : (P.decode d.ffi_window true).2.frame_bytes = 0
    · have hw : d.ffi_window = [] := by
        by_contra hne
        exact hf d.ffi_window true hne hz
      have hlen := ffi_window_length_inv P data d hInv
      rw [hw] at hlen
      have hI : INT_MAX = 2147483647 := rfl
      have hrem : d.data_rem_len = 0 := by
        simp only [List.length_nil] at hlen
        omega
      rw [next_frame_eq, if_neg hs0, if_neg (by simp [hz])]
      exact ⟨rfl, by simp [nextAdvance, hrem]⟩
    · rw [next_frame_eq, if_neg hs0, if_pos hz]
      have hfb := decode_frame_bytes_le_rem P d true
      have hpos : 0 < ((P.decode d.ffi_window true).2.frame_bytes).toNat := by
        have := P.frame_bytes_nonneg d.ffi_window true
        omega
      have ha_rem : (nextAdvance P d).data_rem_len =
          d.data_rem_len - ((P.decode d.ffi_window true).2.frame_bytes).toNat := rfl
      exact ih (nextAdvance P d) (by omega) (nextAdvance_inv P data d hInv)

/-- Any frame returned by next_frame is the decoded-frame view built at
some intermediate state e (the state where the decode succeeded), and
the final state is the advance past e. -/
theorem next_frame_some_shape (P : DecodePrimitive) :
    ∀ (k : Nat) (d : Decoder) (f : Frame), d.data_rem_len ≤ k →
      (d.next_frame P).1 = some f →
      ∃ e : Decoder, e.data = d.data ∧ d.data_offset ≤ e.data_offset ∧
        0 < ((P.decode e.ffi_window true).1).toNat ∧
        f = decodedFrame P e ∧
        (d.next_frame P).2 = nextAdvance P e := by
  intro k
  induction k with
  | zero =>
    intro d f hk hf
    have hrem : d.data_rem_len = 0 := by omega
    have hfb := decode_frame_bytes_le_rem P d true
    have hfb0 : (P.decode d.ffi_window true).2.frame_bytes = 0 := by
      have := P.frame_bytes_nonneg d.ffi_window true
      omega
    have hs0 : ¬ 0 < ((P.decode d.ffi_window true).1).toNat := by
      intro hs
      have := P.samples_pos_frame_bytes_pos d.ffi_window true (by omega)
      omega
    rw [next_frame_eq, if_neg hs0, if_neg (by simp [hfb0])] at hf
    exact absurd hf (by simp)
  | succ k ih =>
    intro d f hk hf
    by_cases hs : 0 < ((P.decode d.ffi_window true).1).toNat
    · rw [next_frame_eq, if_pos hs] at hf
      simp only [Option.some.injEq] at hf
      refine ⟨d, rfl, le_rfl, hs, hf.symm, ?_⟩
      rw [next_frame_eq, if_pos hs]
    · by_cases hz : (P.decode d.ffi_window true).2.frame_bytes ≠ 0
      · rw [next_frame_eq, if_neg hs, if_pos hz] at hf
        have hfb := decode_frame_bytes_le_rem P d true
        have hpos : 0 < ((P.decode d.ffi_window true).2.frame_bytes).toNat := by
          have := P.frame_bytes_nonneg d.ffi_window true
          omega
        have ha_rem : (nextAdvance P d).data_rem_len =
            d.data_rem_len - ((P.decode d.ffi_window true).2.frame_bytes).toNat := rfl
        obtain ⟨e, he1, he2, he3, he4, he5⟩ := ih (nextAdvance P d) f (by omega) hf
        have ha_off : (nextAdvance P d).data_offset =
            d.data_offset + ((P.decode d.ffi_window true).2.frame_bytes).toNat := rfl
        refine ⟨e, he1, by omega, he3, he4, ?_⟩
        rw [next_frame_eq, if_neg hs, if_pos hz]
        exact he5
      · rw [next_frame_eq, if_neg hs, if_neg hz] at hf
        exact absurd hf (by simp)

/-! ## Auxiliary facts shared by the claim proofs -/

/-- peek_frame changes no field but the cache. -/
theorem peek_frame_cursor (P : DecodePrimitive) (d : Decoder) :
    (d.peek_frame P).2.data_offset = d.data_offset ∧
    (d.peek_frame P).2.data_rem_len = d.data_rem_len ∧
    (d.peek_frame P).2.data = d.data ∧
    (d.peek_frame P).2.pcm = d.pcm := by
  rw [peek_frame_eq]
  split
  · exact ⟨rfl, rfl, rfl, rfl⟩
  · exact ⟨rfl, rfl, rfl, rfl⟩

/-- skip_frame never grows the remaining count. -/
theorem skip_frame_rem_le (P : DecodePrimitive) (d : Decoder) :
    (d.skip_frame P).data_rem_len ≤ d.data_rem_len := by
  rw [skip_frame_eq]
  cases hc : d.cached_len with
  | some n => exact Nat.sub_le _ _
  | none =>
    by_cases hz : (P.decode d.ffi_window false).2.frame_bytes = 0
    · rw [if_pos hz]
    · rw [if_neg hz]
      exact Nat.sub_le _ _

/-- The window over the empty buffer is empty, so the primitive reports
frame_bytes = 0 and no samples there. -/
theorem new_nil_window (P : DecodePrimitive) (b : Bool) :
    (Decoder.new []).ffi_window = [] ∧
    (P.decode (Decoder.new []).ffi_window b).2.frame_bytes = 0 ∧
    ¬ 0 < ((P.decode (Decoder.new []).ffi_window b).1).toNat := by
  have hw : (Decoder.new []).ffi_window = [] := by
    simp [Decoder.ffi_window, Decoder.new]
  rw [hw]
  have h1 := P.frame_bytes_le [] b
  have h2 := P.frame_bytes_nonneg [] b
  simp only [List.length_nil] at h1
  have hfb : (P.decode [] b).2.frame_bytes = 0 := by omega
  refine ⟨rfl, hfb, ?_⟩
  intro hs
  have := P.samples_pos_frame_bytes_pos [] b (by omega)
  omega

/-! ## The claims -/

/-- C1: at every reachable decoder state, the frame length reported by the
decode primitive never exceeds the remaining byte count (for either call
mode), and neither does a set peek-cache entry, so the cursor subtraction
`data_rem_len - frame_bytes` in next_frame and skip_frame never
underflows; and whenever the primitive instead reports no frame at all
(frame_bytes = 0), next_frame terminates the stream returning nothing
without moving the cursor, and skip_frame stops as a no-op. -/
theorem C1_frame_bytes_never_underflows (P : DecodePrimitive) (data : List Nat)
    (d : Decoder) (h : Reach P data d) :
    (∀ b, ((P.decode d.ffi_window b).2.frame_bytes).toNat ≤ d.data_rem_len) ∧
    (∀ n, d.cached_len = some n → n ≤ d.data_rem_len) ∧
    ((P.decode d.ffi_window true).2.frame_bytes = 0 →
      (d.next_frame P).1 = none ∧
      (d.next_frame P).2.data_offset = d.data_offset ∧
      (d.next_frame P).2.data_rem_len = d.data_rem_len) ∧
    ((P.decode d.ffi_window false).2.frame_bytes = 0 → d.skip_frame P = d) := by
  obtain ⟨hdata, hlen, hcache⟩ := reach_inv P data d h
  refine ⟨fun b => decode_frame_bytes_le_rem P d b, ?_, ?_, ?_⟩
  · intro n hn
    obtain ⟨hn', _⟩ := hcache n hn
    rw [hn']
    exact decode_frame_bytes_le_rem P d false
  · intro hfb0
    have hs0 : ¬ 0 < ((P.decode d.ffi_window true).1).toNat := by
      intro hs
      have := P.samples_pos_frame_bytes_pos d.ffi_window true (by omega)
      omega
    rw [next_frame_eq, if_neg hs0, if_neg (by simp [hfb0])]
    exact ⟨rfl, by simp [nextAdvance, hfb0], by simp [nextAdvance, hfb0]⟩
  · intro hfb0
    have hnone : d.cached_len = none := by
      cases hc : d.cached_len with
      | none => rfl
      | some n =>
        obtain ⟨hn, hnpos⟩ := hcache n hc
        rw [hfb0] at hn
        simp at hn
        omega
    rw [skip_frame_eq, hnone]
    simp [hfb0]

/-- C2: every reachable state satisfies offset + remaining = total buffer
length, and no operation grows the remaining count (the operations also
re-establish the equation on their result states). -/
theorem C2_cursor_invariant (P : DecodePrimitive) (data : List Nat)
    (d : Decoder) (h : Reach P data d) :
    d.data_offset + d.data_rem_len = data.length ∧
    (d.next_frame P).2.data_rem_len ≤ d.data_rem_len ∧
    (d.peek_frame P).2.data_rem_len = d.data_rem_len ∧
    (d.skip_frame P).data_rem_len ≤ d.data_rem_len ∧
    (d.next_frame P).2.data_offset + (d.next_frame P).2.data_rem_len = data.length ∧
    (d.peek_frame P).2.data_offset + (d.peek_frame P).2.data_rem_len = data.length ∧
    (d.skip_frame P).data_offset + (d.skip_frame P).data_rem_len = data.length := by
  have hInv := reach_inv P data d h
  obtain ⟨hnInv, hnrem, _, _⟩ := next_frame_spec P data d.data_rem_len d le_rfl hInv
  exact ⟨hInv.2.1, hnrem, (peek_frame_cursor P d).2.1, skip_frame_rem_le P d,
    hnInv.2.1, (peek_frame_inv P data d hInv).2.1, (skip_frame_inv P data d hInv).2.1⟩

/-- C3: a successful peek_frame followed immediately by skip_frame
advances position by exactly the peeked frame's source length, and the
skip consumes the cached length without consulting the decode primitive
again (its result is the same whatever primitive it is given). -/
theorem C3_peek_then_skip_uses_cache (P : DecodePrimitive) (d : Decoder)
    (f : Frame) (d1 : Decoder) (hp : d.peek_frame P = (some f, d1)) :
    (d1.skip_frame P).position = d.position + f.source.length ∧
    (∀ Q : DecodePrimitive, d1.skip_frame Q = d1.skip_frame P) := by
  rw [peek_frame_eq] at hp
  by_cases hz : (P.decode d.ffi_window false).2.frame_bytes = 0
  · rw [if_pos hz] at hp
    exact absurd (congrArg Prod.fst hp) (by simp)
  · rw [if_neg hz] at hp
    injection hp with hf hd1
    subst hd1
    injection hf with hf
    subst hf
    have hsrc : (peekedFrame P d).source.length =
        ((P.decode d.ffi_window false).2.frame_bytes).toNat := by
      simp only [peekedFrame, List.length_take, List.length_drop]
      have := decode_frame_bytes_le_avail P d false
      omega
    constructor
    · rw [hsrc]
      rfl
    · intro Q
      rfl

/-- C4: when the primitive finds no samples anywhere (a buffer of
non-sync-word bytes) but reports a positive skip length on every
non-empty window, next_frame terminates after finitely many
skip-and-retry iterations, consuming the whole remainder and returning
nothing — each iteration strictly shrinks the remaining count, so there
is no infinite loop. -/
theorem C4_skip_retry_terminates (P : DecodePrimitive) (data : List Nat)
    (d : Decoder) (h : Reach P data d)
    (hs : ∀ w b, (P.decode w b).1 = 0)
    (hf : ∀ w b, w ≠ [] → (P.decode w b).2.frame_bytes ≠ 0) :
    (d.next_frame P).1 = none ∧
    (d.next_frame P).2.data_rem_len = 0 ∧
    (d.next_frame P).2.data_offset = data.length ∧
    (0 < d.data_rem_len → (nextAdvance P d).data_rem_len < d.data_rem_len) := by
  have hInv := reach_inv P data d h
  obtain ⟨hnone, hrem⟩ := next_frame_exhausts P data hs hf d.data_rem_len d le_rfl hInv
  obtain ⟨hnInv, _, _, _⟩ := next_frame_spec P data d.data_rem_len d le_rfl hInv
  refine ⟨hnone, hrem, by have := hnInv.2.1; omega, ?_⟩
  intro hpos
  have hw : d.ffi_window ≠ [] := by
    have hlen := ffi_window_length_inv P data d hInv
    have hI : INT_MAX = 2147483647 := rfl
    intro hnil
    rw [hnil] at hlen
    simp only [List.length_nil] at hlen
    omega
  have hz := hf d.ffi_window true hw
  have hfb := decode_frame_bytes_le_rem P d true
  have hnn := P.frame_bytes_nonneg d.ffi_window true
  have ha_rem : (nextAdvance P d).data_rem_len =
      d.data_rem_len - ((P.decode d.ffi_window true).2.frame_bytes).toNat := rfl
  omega

/-- skip_frame is a no-op when the cache is clear and the primitive finds
no frame. -/
theorem skip_frame_noop (P : DecodePrimitive) (d : Decoder) (hc : d.cached_len = none)
    (hz : (P.decode d.ffi_window false).2.frame_bytes = 0) : d.skip_frame P = d := by
  rw [skip_frame_eq, hc]
  dsimp only
  rw [if_pos hz]

/-- The peeked frame view ignores the cache slot. -/
theorem peekedFrame_set_cache (P : DecodePrimitive) (d : Decoder) (c : Option Nat) :
    peekedFrame P { d with cached_len := c } = peekedFrame P d := rfl

/-- C5: peek_frame never advances the cursor — position, offset and
remaining count (and the buffer and PCM scratch) are unchanged — and
every frame it returns has an empty samples slice while the metadata
fields carry exactly what the primitive reported, the source view having
exactly the reported frame length. -/
theorem C5_peek_does_not_advance (P : DecodePrimitive) (d : Decoder) :
    (d.peek_frame P).2.position = d.position ∧
    (d.peek_frame P).2.data_offset = d.data_offset ∧
    (d.peek_frame P).2.data_rem_len = d.data_rem_len ∧
    (d.peek_frame P).2.data = d.data ∧
    (d.peek_frame P).2.pcm = d.pcm ∧
    (∀ f, (d.peek_frame P).1 = some f →
      f.samples = [] ∧
      f.bitrate = ((P.decode d.ffi_window false).2.bitrate_kbps).toNat ∧
      f.channels = ((P.decode d.ffi_window false).2.channels).toNat ∧
      f.mpeg_layer = ((P.decode d.ffi_window false).2.layer).toNat ∧
      f.sample_rate = ((P.decode d.ffi_window false).2.hz).toNat ∧
      f.sample_count = ((P.decode d.ffi_window false).1).toNat ∧
      f.source.length = ((P.decode d.ffi_window false).2.frame_bytes).toNat) := by
  obtain ⟨h1, h2, h3, h4⟩ := peek_frame_cursor P d
  refine ⟨h1, h1, h2, h3, h4, ?_⟩
  intro f hf
  rw [peek_frame_eq] at hf
  by_cases hz : (P.decode d.ffi_window false).2.frame_bytes = 0
  · rw [if_pos hz] at hf
    exact absurd hf (by simp)
  · rw [if_neg hz] at hf
    injection hf with hf
    subst hf
    refine ⟨rfl, rfl, rfl, rfl, rfl, rfl, ?_⟩
    simp only [peekedFrame, List.length_take, List.length_drop]
    have := decode_frame_bytes_le_avail P d false
    omega

/-- C6: a frame returned by next_frame never has a positive
sample_count with an empty samples view, nor a zero sample_count with a
non-empty samples view. -/
theorem C6_sample_count_matches_samples (P : DecodePrimitive) (d : Decoder) (f : Frame)
    (hf : (d.next_frame P).1 = some f) :
    ¬ (0 < f.sample_count ∧ f.samples = []) ∧
    ¬ (f.sample_count = 0 ∧ f.samples ≠ []) := by
  obtain ⟨e, _, _, hs, hfe, _⟩ := next_frame_some_shape P d.data_rem_len d f le_rfl hf
  subst hfe
  have hch := P.samples_pos_channels_pos e.ffi_window true (by
    have := P.samples_nonneg e.ffi_window true
    omega)
  have hchn : 0 < ((P.decode e.ffi_window true).2.channels).toNat := by omega
  have hmul := P.samples_mul_channels_le e.ffi_window true
  have hpcm := P.pcmWrite_length e.ffi_window
  have hlen : (decodedFrame P e).samples.length =
      ((P.decode e.ffi_window true).1).toNat * ((P.decode e.ffi_window true).2.channels).toNat := by
    simp only [decodedFrame, List.length_take, hpcm]
    omega
  have hcount : (decodedFrame P e).sample_count = ((P.decode e.ffi_window true).1).toNat := rfl
  constructor
  · rintro ⟨hpos, hemp⟩
    rw [hemp] at hlen
    simp only [List.length_nil] at hlen
    have := Nat.mul_pos hs hchn
    omega
  · rintro ⟨hzero, _⟩
    rw [hcount] at hzero
    omega

/-- C7: at a reachable state where the primitive finds no frame,
skip_frame is a silent no-op; on the empty buffer, next_frame and
peek_frame return nothing, skip_frame is a no-op, and position stays 0. -/
theorem C7_end_of_stream_noops (P : DecodePrimitive) (data : List Nat)
    (d : Decoder) (h : Reach P data d) :
    ((P.decode d.ffi_window false).2.frame_bytes = 0 → d.skip_frame P = d) ∧
    ((Decoder.new []).next_frame P).1 = none ∧
    ((Decoder.new []).next_frame P).2.position = 0 ∧
    (Decoder.new []).peek_frame P = (none, Decoder.new []) ∧
    (Decoder.new []).skip_frame P = Decoder.new [] ∧
    (Decoder.new []).position = 0 := by
  obtain ⟨_, _, hcache⟩ := reach_inv P data d h
  obtain ⟨hwt, hfbt, hst⟩ := new_nil_window P true
  obtain ⟨hwf, hfbf, _⟩ := new_nil_window P false
  refine ⟨?_, ?_, ?_, ?_, ?_, rfl⟩
  · intro hfb0
    have hnone : d.cached_len = none := by
      cases hc : d.cached_len with
      | none => rfl
      | some n =>
        obtain ⟨hn, hnpos⟩ := hcache n hc
        rw [hfb0] at hn
        simp at hn
        omega
    exact skip_frame_noop P d hnone hfb0
  · rw [next_frame_eq, if_neg hst, if_neg (by simp [hfbt])]
  · rw [next_frame_eq, if_neg hst, if_neg (by simp [hfbt])]
    have hoff : (Decoder.new []).data_offset = 0 := rfl
    simp [nextAdvance, Decoder.position, hfbt, hoff]
  · rw [peek_frame_eq, if_pos hfbf]
  · exact skip_frame_noop P (Decoder.new []) rfl hfbf

/-- C8: the window length handed to the primitive is always the minimum
of the remaining count and the c_int ceiling, so the primitive is never
given an oversized length, and larger remainders are presented as
successive clamped windows starting at the current offset. -/
theorem C8_window_clamped (P : DecodePrimitive) (data : List Nat) (d : Decoder)
    (h : Reach P data d) :
    d.ffi_window.length = min d.data_rem_len INT_MAX ∧
    d.ffi_window.length ≤ INT_MAX ∧
    d.ffi_window = (d.data.drop d.data_offset).take (min d.data_rem_len INT_MAX) := by
  have h1 := ffi_window_length_inv P data d (reach_inv P data d h)
  refine ⟨h1, ?_, rfl⟩
  rw [h1]
  exact min_le_right _ _

/-- C9: two consecutive peek_frame calls with no mutation in between
return the same result on the same state — peeking is idempotent and
preserves position. -/
theorem C9_peek_idempotent (P : DecodePrimitive) (d : Decoder) :
    (d.peek_frame P).2.peek_frame P = d.peek_frame P ∧
    (d.peek_frame P).2.position = d.position := by
  refine ⟨?_, (peek_frame_cursor P d).1⟩
  by_cases hz : (P.decode d.ffi_window false).2.frame_bytes = 0
  · have h1 : d.peek_frame P = (none, d) := by rw [peek_frame_eq, if_pos hz]
    rw [h1]
    exact h1
  · have h1 : d.peek_frame P = (some (peekedFrame P d),
        { d with cached_len := some ((P.decode d.ffi_window false).2.frame_bytes).toNat }) := by
      rw [peek_frame_eq, if_neg hz]
    rw [h1, peek_frame_eq, ffi_window_set_cache, if_neg hz, peekedFrame_set_cache]

/-- C10: every frame returned by next_frame has a samples view of length
exactly sample_count * channels, and its source view is exactly the
(positive-length) run of buffer bytes that the final advance of the
cursor consumed, ending at the new offset. -/
theorem C10_frame_views (P : DecodePrimitive) (d : Decoder) (f : Frame)
    (hf : (d.next_frame P).1 = some f) :
    f.samples.length = f.sample_count * f.channels ∧
    ∃ o, d.data_offset ≤ o ∧
      (d.next_frame P).2.data_offset = o + f.source.length ∧
      f.source = (d.data.drop o).take f.source.length ∧
      0 < f.source.length := by
  obtain ⟨e, hedata, heoff, hs, hfe, hadv⟩ := next_frame_some_shape P d.data_rem_len d f le_rfl hf
  subst hfe
  have hpcm := P.pcmWrite_length e.ffi_window
  have hmul := P.samples_mul_channels_le e.ffi_window true
  have hlen1 : (decodedFrame P e).samples.length =
      (decodedFrame P e).sample_count * (decodedFrame P e).channels := by
    simp only [decodedFrame, List.length_take, hpcm]
    omega
  have hsp := P.samples_pos_frame_bytes_pos e.ffi_window true (by
    have := P.samples_nonneg e.ffi_window true
    omega)
  have hfble := decode_frame_bytes_le_avail P e true
  have hsrclen : (decodedFrame P e).source.length =
      ((P.decode e.ffi_window true).2.frame_bytes).toNat := by
    simp only [decodedFrame, List.length_take, List.length_drop]
    omega
  refine ⟨hlen1, e.data_offset, heoff, ?_, ?_, ?_⟩
  · rw [hadv, hsrclen]
    rfl
  · rw [hsrclen]
    simp only [decodedFrame, hedata]
  · rw [hsrclen]
    omega

/-! ## Concrete primitives used to instantiate the theorems -/

/-- A concrete decode primitive: on a non-empty window it reports one
sample in one channel within a one-byte frame; on an empty window it
reports end of stream. -/
def onePrimitive : DecodePrimitive where
  decode w _ :=
    if w.length = 0 then
      (0, { frame_bytes := 0, channels := 0, hz := 0, layer := 0, bitrate_kbps := 0 })
    else
      (1, { frame_bytes := 1, channels := 1, hz := 44100, layer := 3, bitrate_kbps := 128 })
  pcmWrite _ := List.replicate MAX_SAMPLES_PER_FRAME 0
  samples_nonneg := by
    intro w b
    dsimp only
    split <;> simp
  frame_bytes_nonneg := by
    intro w b
    dsimp only
    split <;> simp
  frame_bytes_le := by
    intro w b
    dsimp only
    split
    · simp
    · rename_i h
      simp only [Int.toNat_one]
      omega
  samples_pos_frame_bytes_pos := by
    intro w b
    dsimp only
    split <;> simp
  samples_pos_channels_pos := by
    intro w b
    dsimp only
    split <;> simp
  samples_mul_channels_le := by
    intro w b
    dsimp only
    split <;> decide
  pcmWrite_length := by
    intro w
    simp

/-- A concrete decode primitive that never finds samples and skips one
byte at a time: a buffer of non-sync-word garbage. -/
def garbagePrimitive : DecodePrimitive where
  decode w _ :=
    if w.length = 0 then
      (0, { frame_bytes := 0, channels := 0, hz := 0, layer := 0, bitrate_kbps := 0 })
    else
      (0, { frame_bytes := 1, channels := 0, hz := 0, layer := 0, bitrate_kbps := 0 })
  pcmWrite _ := List.replicate MAX_SAMPLES_PER_FRAME 0
  samples_nonneg := by
    intro w b
    dsimp only
    split <;> simp
  frame_bytes_nonneg := by
    intro w b
    dsimp only
    split <;> simp
  frame_bytes_le := by
    intro w b
    dsimp only
    split
    · simp
    · rename_i h
      simp only [Int.toNat_one]
      omega
  samples_pos_frame_bytes_pos := by
    intro w b
    dsimp only
    split <;> simp
  samples_pos_channels_pos := by
    intro w b
    dsimp only
    split <;> simp
  samples_mul_channels_le := by
    intro w b
    dsimp only
    split <;> decide
  pcmWrite_length := by
    intro w
    simp

/-- On any non-empty window the garbage primitive reports a nonzero skip
length. -/
theorem garbagePrimitive_skips (w : List Nat) (b : Bool) (hw : w ≠ []) :
    (garbagePrimitive.decode w b).2.frame_bytes ≠ 0 := by
  simp [garbagePrimitive, hw]

/-- The garbage primitive never reports samples. -/
theorem garbagePrimitive_no_samples (w : List Nat) (b : Bool) :
    (garbagePrimitive.decode w b).1 = 0 := by
  dsimp only [garbagePrimitive]
  split <;> rfl

/-! ## Witnesses: the claim theorems applied at concrete inputs -/

/-- Witness for C1 at a concrete primitive and buffers. -/
theorem C1_witness :
    Reach onePrimitive [5] (Decoder.new [5]) ∧
    (∀ b, ((onePrimitive.decode (Decoder.new [5]).ffi_window b).2.frame_bytes).toNat ≤
      (Decoder.new [5]).data_rem_len) ∧
    (Decoder.new []).skip_frame onePrimitive = Decoder.new [] :=
  ⟨Reach.init,
   (C1_frame_bytes_never_underflows onePrimitive [5] (Decoder.new [5]) Reach.init).1,
   (C1_frame_bytes_never_underflows onePrimitive [] (Decoder.new []) Reach.init).2.2.2 rfl⟩

/-- Witness for C2 at a concrete primitive and buffer. -/
theorem C2_witness :
    Reach onePrimitive [5] (Decoder.new [5]) ∧
    (Decoder.new [5]).data_offset + (Decoder.new [5]).data_rem_len = [5].length ∧
    ((Decoder.new [5]).peek_frame onePrimitive).2.data_rem_len = (Decoder.new [5]).data_rem_len :=
  ⟨Reach.init,
   (C2_cursor_invariant onePrimitive [5] (Decoder.new [5]) Reach.init).1,
   (C2_cursor_invariant onePrimitive [5] (Decoder.new [5]) Reach.init).2.2.1⟩

/-- Witness for C3: a concrete peek followed by a skip. -/
theorem C3_witness :
    (Decoder.new [7]).peek_frame onePrimitive =
      (some { bitrate := 128, channels := 1, mpeg_layer := 3, samples := [],
              sample_count := 1, sample_rate := 44100, source := [7] },
       { Decoder.new [7] with cached_len := some 1 }) ∧
    (Decoder.skip_frame onePrimitive { Decoder.new [7] with cached_len := some 1 }).position =
      (Decoder.new [7]).position + 1 := by
  refine ⟨rfl, ?_⟩
  have h := (C3_peek_then_skip_uses_cache onePrimitive (Decoder.new [7])
      { bitrate := 128, channels := 1, mpeg_layer := 3, samples := [],
        sample_count := 1, sample_rate := 44100, source := [7] }
      { Decoder.new [7] with cached_len := some 1 } rfl).1
  simpa using h

/-- Witness for C4: a three-byte garbage buffer is consumed entirely. -/
theorem C4_witness :
    Reach garbagePrimitive [9, 9, 9] (Decoder.new [9, 9, 9]) ∧
    ((Decoder.new [9, 9, 9]).next_frame garbagePrimitive).1 = none ∧
    ((Decoder.new [9, 9, 9]).next_frame garbagePrimitive).2.data_rem_len = 0 ∧
    ((Decoder.new [9, 9, 9]).next_frame garbagePrimitive).2.data_offset = [9, 9, 9].length := by
  have h := C4_skip_retry_terminates garbagePrimitive [9, 9, 9] (Decoder.new [9, 9, 9])
    Reach.init garbagePrimitive_no_samples garbagePrimitive_skips
  exact ⟨Reach.init, h.1, h.2.1, h.2.2.1⟩

/-- Witness for C5: a concrete peek with populated metadata. -/
theorem C5_witness :
    ((Decoder.new [7]).peek_frame onePrimitive).2.position = (Decoder.new [7]).position ∧
    ({ bitrate := 128, channels := 1, mpeg_layer := 3, samples := [],
       sample_count := 1, sample_rate := 44100, source := [7] } : Frame).samples = [] :=
  ⟨(C5_peek_does_not_advance onePrimitive (Decoder.new [7])).1,
   ((C5_peek_does_not_advance onePrimitive (Decoder.new [7])).2.2.2.2.2
      { bitrate := 128, channels := 1, mpeg_layer := 3, samples := [],
        sample_count := 1, sample_rate := 44100, source := [7] } rfl).1⟩

/-- Witness for C6: a concrete decoded frame. -/
theorem C6_witness :
    ((Decoder.new [7]).next_frame onePrimitive).1 =
      some { bitrate := 128, channels := 1, mpeg_layer := 3, samples := [0],
             sample_count := 1, sample_rate := 44100, source := [7] } ∧
    ¬ (0 < ({ bitrate := 128, channels := 1, mpeg_layer := 3, samples := [0],
              sample_count := 1, sample_rate := 44100, source := [7] } : Frame).sample_count ∧
        ({ bitrate := 128, channels := 1, mpeg_layer := 3, samples := [0],
           sample_count := 1, sample_rate := 44100, source := [7] } : Frame).samples = []) := by
  have hf : ((Decoder.new [7]).next_frame onePrimitive).1 =
      some { bitrate := 128, channels := 1, mpeg_layer := 3, samples := [0],
             sample_count := 1, sample_rate := 44100, source := [7] } := by
    rw [next_frame_eq]
    rfl
  exact ⟨hf, (C6_sample_count_matches_samples onePrimitive (Decoder.new [7]) _ hf).1⟩

/-- Witness for C7 over the empty buffer. -/
theorem C7_witness :
    Reach onePrimitive [] (Decoder.new []) ∧
    (Decoder.new []).skip_frame onePrimitive = Decoder.new [] ∧
    ((Decoder.new []).next_frame onePrimitive).1 = none ∧
    (Decoder.new []).position = 0 := by
  have h := C7_end_of_stream_noops onePrimitive [] (Decoder.new []) Reach.init
  exact ⟨Reach.init, h.1 rfl, h.2.1, h.2.2.2.2.2⟩

/-- Witness for C8 at a concrete buffer. -/
theorem C8_witness :
    Reach onePrimitive [5] (Decoder.new [5]) ∧
    (Decoder.new [5]).ffi_window.length = min (Decoder.new [5]).data_rem_len INT_MAX :=
  ⟨Reach.init, (C8_window_clamped onePrimitive [5] (Decoder.new [5]) Reach.init).1⟩

/-- Witness for C10: the concrete decoded frame's views. -/
theorem C10_witness :
    ((Decoder.new [7]).next_frame onePrimitive).1 =
      some { bitrate := 128, channels := 1, mpeg_layer := 3, samples := [0],
             sample_count := 1, sample_rate := 44100, source := [7] } ∧
    ({ bitrate := 128, channels := 1, mpeg_layer := 3, samples := [0],
       sample_count := 1, sample_rate := 44100, source := [7] } : Frame).samples.length =
      ({ bitrate := 128, channels := 1, mpeg_layer := 3, samples := [0],
         sample_count := 1, sample_rate := 44100, source := [7] } : Frame).sample_count *
      ({ bitrate := 128, channels := 1, mpeg_layer := 3, samples := [0],
         sample_count := 1, sample_rate := 44100, source := [7] } : Frame).channels := by
  have hf : ((Decoder.new [7]).next_frame onePrimitive).1 =
      some { bitrate := 128, channels := 1, mpeg_layer := 3, samples := [0],
             sample_count := 1, sample_rate := 44100, source := [7] } := by
    rw [next_frame_eq]
    rfl
  exact ⟨hf, (C10_frame_views onePrimitive (Decoder.new [7]) _ hf).1⟩
